import Mathlib

/-!
Verification development for the `arch` package crawler.

The Python sources under `src/arch/` (crawler.py, data_models.py, mermaid.py,
utils.py) are shallowly embedded below.  Conventions of the embedding:

* A POSIX absolute path `/a/b/c.py` is modeled by its list of segments
  `["a", "b", "c.py"]`; segments never contain the separator `/`.
* Python strings are Lean `String`s; Python's lexicographic string
  comparison (by code point) is re-implemented as `pyLt`/`pyle` because it
  must evaluate inside the kernel.
* Python's stable `sorted` is modeled by `List.insertionSort`, which is
  also stable (equal elements keep their original relative order).
* `raise` is modeled by `Except`; an uncaught exception is `.error`.
* The filesystem seen by one crawl is a tree of nodes (`FSNode`); a
  directory carries a `readable` flag modelling read permission (listing an
  unreadable directory raises `PermissionError`; `os.walk` swallows that
  error because its `onerror` argument defaults to `None`).
-/

namespace Arch

/-! ### Python string primitives (re-implemented so they reduce in the kernel) -/

/-- Lexicographic comparison of code-point lists, Python's `<` on `str`. -/
def listCharLt : List Char → List Char → Bool
  | [], [] => false
  | [], _ :: _ => true
  | _ :: _, [] => false
  | a :: as, b :: bs => if a < b then true else if b < a then false else listCharLt as bs

/-- Python's `a < b` on strings. -/
def pyLt (a b : String) : Bool := listCharLt a.data b.data

/-- Python's `a <= b` on strings (total order used by `sorted`). -/
def pyle (a b : String) : Prop := !(pyLt b a) = true

instance : DecidableRel pyle := fun _ _ => inferInstanceAs (Decidable (_ = true))

/-- Key comparison used when Python sorts a list of `(key, value)` pairs whose
keys are pairwise distinct strings (tuple comparison never reaches the
second component then). -/
def keyle {α : Type} (a b : String × α) : Prop := pyle a.1 b.1

instance {α : Type} : DecidableRel (keyle (α := α)) :=
  fun a b => inferInstanceAs (Decidable (pyle a.1 b.1))

/-- Python's `sorted` on a list of strings. -/
def pySorted (xs : List String) : List String := List.insertionSort pyle xs

/-- De-duplication keeping first occurrences, mirroring the `seen`-set loop of
`_discover_roots` and the element collection of a Python `set`. -/
def pyDedup (seen : List String) : List String → List String
  | [] => []
  | x :: xs => if x ∈ seen then pyDedup seen xs else x :: pyDedup (x :: seen) xs

/-- Python's `sorted(set(xs))`: the sorted list of the distinct elements of
`xs`.  (The iteration order of the intermediate `set` is irrelevant: the
result is the unique duplicate-free sorted list with the same members.) -/
def sortedSet (xs : List String) : List String := pySorted (pyDedup [] xs)

/-- Python's `s.replace(old, new)` (left-to-right, non-overlapping).  The
first argument is fuel, instantiated with the length of the subject string;
callers in this development never pass an empty `old`. -/
def pyReplaceAux (old new : List Char) : Nat → List Char → List Char
  | _, [] => []
  | 0, l => l
  | fuel + 1, c :: cs =>
      if old.isPrefixOf (c :: cs) ∧ old ≠ [] then
        new ++ pyReplaceAux old new fuel (cs.drop (old.length - 1))
      else c :: pyReplaceAux old new fuel cs

/-- Python's `s.replace(old, new)` for non-empty `old`. -/
def pyReplace (s old new : String) : String :=
  String.mk (pyReplaceAux old.data new.data s.data.length s.data)

/-- Python's `s.split(sep)` for a single-character separator. -/
def pySplitCharAux (sep : Char) : List Char → List (List Char)
  | [] => [[]]
  | c :: cs =>
      match pySplitCharAux sep cs with
      | [] => [[]]
      | r :: rs => if c = sep then [] :: r :: rs else (c :: r) :: rs

/-- Python's `s.split(sep)` for a single-character separator (`os.sep`). -/
def pySplitChar (sep : Char) (s : String) : List String :=
  (pySplitCharAux sep s.data).map String.mk

/-- Python's `s.lstrip("/\\")`. -/
def lstripSlashes (s : String) : String :=
  String.mk (s.data.dropWhile (fun c => c = '/' ∨ c = '\\'))

/-- Python's `s.endswith(t)`. -/
def pyEndsWith (s t : String) : Bool := t.data.isSuffixOf s.data

/-! ### Path helpers (POSIX paths as segment lists) -/

/-- `os.path.basename(os.path.normpath(p))` for an absolute path, and
`pathlib.Path(p).name`: the last segment. -/
def basename (p : List String) : String := p.getLastD ""

/-- `os.path.dirname(p)` / `pathlib.Path(p).parent` for an absolute path. -/
def dirname (p : List String) : List String := p.dropLast

/-- `str(p)` for an absolute path: `/` followed by the `/`-joined segments. -/
def pathToString (p : List String) : String := "/" ++ String.intercalate "/" p

/-- Index (from the end-exclusive left) of the last `'.'`, `str.rfind('.')`. -/
def rfindDot : List Char → Option Nat
  | [] => none
  | c :: rest =>
      match rfindDot rest with
      | some i => some (i + 1)
      | none => if c = '.' then some 0 else none

/-- `pathlib.PurePath.stem` of a single path component: the component without
its suffix; a dot that is leading or trailing does not start a suffix. -/
def pathStem (name : String) : String :=
  match rfindDot name.data with
  | some i => if 0 < i ∧ i + 1 < name.data.length then String.mk (name.data.take i) else name
  | none => name

/-- `pathlib.PurePath.with_suffix("")` on a relative path: the last segment is
replaced by its stem. -/
def with_suffix_empty (p : List String) : List String :=
  dirname p ++ [pathStem (basename p)]

/-- Length of the common leading segment run of two paths. -/
def commonPrefixLen : List String → List String → Nat
  | a :: as, b :: bs => if a = b then 1 + commonPrefixLen as bs else 0
  | _, _ => 0

/-- `os.path.relpath(path, start)` on absolute paths: walk up from `start` to
the common ancestor, then down to `path`; the result is `.` when they are
equal. -/
def os_relpath (path start : List String) : List String :=
  let k := commonPrefixLen path start
  let rel := List.replicate (start.length - k) ".." ++ path.drop k
  if rel = [] then ["."] else rel

/-- `pathlib.PurePath(s).parts` for a relative path string: split on `/`,
dropping empty segments and `.` segments. -/
def strToParts (s : String) : List String :=
  (pySplitChar '/' s).filter (fun part => part ≠ "" ∧ part ≠ ".")

/-! ### The Python `ast` expression nodes reachable by `_extract_name`

`expr`/`exprList` is the mutual form of the nested type `expr` with
`Tuple (elts : List expr)`; the list is spelled out so that the recursion of
`_extract_name` is structural. -/

mutual
inductive expr where
  | Name (id : String)
  | Attribute (value : expr) (attr : String)
  | Subscript (value : expr)
  | Call (func : expr)
  | Constant (value : String)
  | Tuple (elts : exprList)
  | OtherExpr (fallback : String)

inductive exprList where
  | nil
  | cons (head : expr) (tail : exprList)
end

/- utils.py `_extract_name`.  The `ast.Constant` case stores
`str(node.value)` directly; the fallback case stores
`getattr(node, "id", repr(node))` directly. -/
mutual
def _extract_name : expr → String
  | .Name id => id
  | .Attribute value attr => _extract_name value ++ "." ++ attr
  | .Subscript value => _extract_name value
  | .Call func => _extract_name func
  | .Constant value => value
  | .Tuple elts => String.intercalate ", " (extractNames elts)
  | .OtherExpr fallback => fallback

def extractNames : exprList → List String
  | .nil => []
  | .cons e rest => _extract_name e :: extractNames rest
end

/-! ### The Python `ast` statement nodes inspected by the module builders -/

/-- Top-level (and class-body) statements.  `Import` stores the `alias.name`
of each imported target; `ImportFrom` stores `node.module` (`none` for a
bare relative `from . import x`).  All other statement kinds are collapsed
into `OtherStmt`, which none of the builders inspect. -/
inductive stmt where
  | ClassDef (name : String) (lineno : Nat) (bases : List expr) (body : List stmt)
  | FunctionDef (name : String) (lineno : Nat) (decorator_list : List expr)
  | AsyncFunctionDef (name : String) (lineno : Nat) (decorator_list : List expr)
  | Import (names : List String)
  | ImportFrom (module : Option String)
  | OtherStmt

/-- The kind (Python runtime type) of a statement node, the key used by
`get_filtered_objects`'s `type(obj)` grouping. -/
inductive StmtKind where
  | ClassDef | FunctionDef | AsyncFunctionDef | Import | ImportFrom | OtherStmt
deriving DecidableEq

def stmtKind : stmt → StmtKind
  | .ClassDef .. => .ClassDef
  | .FunctionDef .. => .FunctionDef
  | .AsyncFunctionDef .. => .AsyncFunctionDef
  | .Import _ => .Import
  | .ImportFrom _ => .ImportFrom
  | .OtherStmt => .OtherStmt

/-- Result of reading and `ast.parse`-ing one source file: either the list of
top-level statements, or a `SyntaxError`/`UnicodeDecodeError`. -/
inductive FileContent where
  | parsed (body : List stmt)
  | unparseable

/-! ### The data model (data_models.py); the crawler imports these classes
under the names `FunctionInfo`, `ClassInfo`, `ModuleInfo`, `PackageModel`. -/

structure Function where
  name : String
  lineno : Nat
  decorators : List String

structure Class where
  name : String
  lineno : Nat
  bases : List String
  methods : List Function

structure Module where
  name : String
  path : String
  classes : List Class
  functions : List Function
  imports : List String

/-- The value stored in `Package.root_path`: the field is annotated `str`,
but `crawl_package` actually stores a `pathlib.Path` object. -/
inductive PyStrOrPath where
  | str (s : String)
  | path (s : String)

structure Package where
  root_path : PyStrOrPath
  roots : List String
  modules : List (String × Module)

abbrev FunctionInfo := Function
abbrev ClassInfo := Class
abbrev ModuleInfo := Module
abbrev PackageModel := Package

/-- An edge dict with keys `type`, `from`, `to` (`from` and `to` are Lean
keywords, hence the trailing underscores). -/
structure Edge where
  type : String
  from_ : String
  to_ : String

/-! ### Module-name resolution -/

/-- crawler.py `_module_name_from_path`.  NOTE the faithful reproduction of
`Path(os.path.relpath(file_path, root)).stem`: `.stem` keeps only the final
path component, so every directory segment of the relative path is lost. -/
def _module_name_from_path (root file_path : List String) : String :=
  let rel := os_relpath file_path root
  let no_ext := pathStem (basename rel)
  let parts := (pySplitChar '/' no_ext).filter (fun part => part ≠ "__init__")
  let dotted := pyReplace (pyReplace (String.intercalate "." parts) "/" ".") "\\" "."
  dotted

/-- data_models.py `Module.convert_path_to_dot`.  Paths in this model are
already absolute and symlink-free, so `Path.resolve()` is the identity.
The `except ValueError` fallback of `Path.relative_to` performs the literal
string-prefix strip of the source. -/
def Module.convert_path_to_dot (root : Option (List String)) (file_path : List String) : String :=
  let file_p := file_path
  let rel :=
    match root with
    | some r =>
        if file_p.take r.length = r then file_p.drop r.length
        else strToParts (lstripSlashes (pyReplace (pathToString file_p) (pathToString r) ""))
    | none => strToParts (lstripSlashes (pathToString file_p))
  let no_ext := with_suffix_empty rel
  let parts := no_ext.filter (fun part => part ≠ "__init__")
  String.intercalate "." parts

/-- The name substitution both builders apply when the dotted name comes out
empty (`__init__.py` directly under the root): use the name of the file's
parent directory. -/
def substIfEmpty (dotted : String) (file_path : List String) : String :=
  if dotted = "" then basename (dirname file_path) else dotted

/-! ### The per-file module builder of crawler.py -/

/-- One step of the `for node in tree.body` loop of `_parse_module`: the
accumulator holds the `classes`, `functions` and `imports` lists. -/
def parseModuleStep (acc : List Class × List Function × List String) (node : stmt) :
    List Class × List Function × List String :=
  match node with
  | .ClassDef name lineno bases body =>
      let bases' := bases.map _extract_name
      let methods := body.filterMap (fun n =>
        match n with
        | .FunctionDef nm ln decs => some ⟨nm, ln, decs.map _extract_name⟩
        | .AsyncFunctionDef nm ln decs => some ⟨nm, ln, decs.map _extract_name⟩
        | _ => none)
      (acc.1 ++ [⟨name, lineno, bases', methods⟩], acc.2.1, acc.2.2)
  | .FunctionDef nm ln decs => (acc.1, acc.2.1 ++ [⟨nm, ln, decs.map _extract_name⟩], acc.2.2)
  | .AsyncFunctionDef nm ln decs => (acc.1, acc.2.1 ++ [⟨nm, ln, decs.map _extract_name⟩], acc.2.2)
  | .Import names => (acc.1, acc.2.1, acc.2.2 ++ names.filter (fun n => n ≠ ""))
  | .ImportFrom module =>
      let m := module.getD ""
      (acc.1, acc.2.1, acc.2.2 ++ if m ≠ "" then [m] else [])
  | .OtherStmt => acc

/-- crawler.py `_parse_module`: `content` stands for the outcome of reading
and parsing `file_path` (the `try` block); `SyntaxError`/`UnicodeDecodeError`
yield `None`.  `os.path.abspath` is the identity on the already absolute
segment paths of this model. -/
def _parse_module (content : FileContent) (file_path : List String) (dotted_name : String) :
    Option Module :=
  match content with
  | .unparseable => none
  | .parsed body =>
      let acc := body.foldl parseModuleStep ([], [], [])
      some ⟨dotted_name, pathToString file_path, acc.1, acc.2.1, sortedSet acc.2.2⟩

/-! ### Edge derivation (data_models.py `build_edges`) -/

/-- `Function.build_edges`. -/
def Function.build_edges (f : Function) (module_name : String) : Edge :=
  ⟨"module_contains", module_name, module_name ++ "." ++ f.name⟩

/-- `Class.build_edges`: one `module_contains` edge, then one `class_contains`
edge per method, then one `inherits` edge per base. -/
def Class.build_edges (c : Class) (module_name : String) : List Edge :=
  [⟨"module_contains", module_name, module_name ++ "." ++ c.name⟩]
    ++ c.methods.map (fun meth =>
        ⟨"class_contains", module_name ++ "." ++ c.name,
          module_name ++ "." ++ c.name ++ "." ++ meth.name⟩)
    ++ c.bases.map (fun base => ⟨"inherits", module_name ++ "." ++ c.name, base⟩)

/-- `Module.build_edges`: class edges, then function containment edges,
then one edge per entry of `imports`. -/
def Module.build_edges (m : Module) : List Edge :=
  (m.classes.map (fun c => c.build_edges m.name)).flatten
    ++ m.functions.map (fun f => f.build_edges m.name)
    ++ m.imports.map (fun imp => ⟨"imports", m.name, imp⟩)

/-- `Package.build_edges`: concatenation over `self.modules.items()` in
mapping (insertion) order. -/
def Package.build_edges (p : Package) : List Edge :=
  (p.modules.map (fun kv => kv.2.build_edges)).flatten

/-! ### Plain Python values, as produced by the `to_dict` serializers.

The mutual spelling (`PyList`/`PyDict` instead of nested `List`s) keeps all
recursion over these values structural. -/

mutual
inductive PyValue where
  | str (s : String)
  | int (n : Int)
  | list (items : PyList)
  | dict (entries : PyDict)
  | path (s : String)

inductive PyList where
  | nil
  | cons (head : PyValue) (tail : PyList)

inductive PyDict where
  | nil
  | cons (key : String) (val : PyValue) (rest : PyDict)
end

def PyList.ofList : List PyValue → PyList
  | [] => .nil
  | v :: vs => .cons v (PyList.ofList vs)

def PyDict.ofList : List (String × PyValue) → PyDict
  | [] => .nil
  | (k, v) :: rest => .cons k v (PyDict.ofList rest)

/-- The keys of a dict, in order. -/
def PyDict.keys : PyDict → List String
  | .nil => []
  | .cons k _ rest => k :: PyDict.keys rest

/-- Look up a key of a dict value (used only to state theorems). -/
def PyValue.dictGet : PyValue → String → Option PyValue
  | .dict entries, k => go entries k
  | _, _ => none
where
  go : PyDict → String → Option PyValue
    | .nil, _ => none
    | .cons k v rest, k' => if k = k' then some v else go rest k'

def PyStrOrPath.toPyValue : PyStrOrPath → PyValue
  | .str s => .str s
  | .path s => .path s

/-- `Function.to_dict`. -/
def Function.to_dict (f : Function) : PyValue :=
  .dict (PyDict.ofList
    [("name", .str f.name), ("lineno", .int f.lineno), ("decorators", .list (PyList.ofList (f.decorators.map .str)))])

/-- `Class.to_dict` (the method dicts are spelled inline in the source, with
the same keys as `Function.to_dict`). -/
def Class.to_dict (c : Class) : PyValue :=
  .dict (PyDict.ofList
    [("name", .str c.name), ("lineno", .int c.lineno),
     ("bases", .list (PyList.ofList (c.bases.map .str))),
     ("methods", .list (PyList.ofList (c.methods.map Function.to_dict)))])

/-- `Module.to_dict`. -/
def Module.to_dict (m : Module) : PyValue :=
  .dict (PyDict.ofList
    [("name", .str m.name), ("path", .str m.path),
     ("classes", .list (PyList.ofList (m.classes.map Class.to_dict))),
     ("functions", .list (PyList.ofList (m.functions.map Function.to_dict))),
     ("imports", .list (PyList.ofList (m.imports.map .str)))])

def Edge.to_dict (e : Edge) : PyValue :=
  .dict (PyDict.ofList [("type", .str e.type), ("from", .str e.from_), ("to", .str e.to_)])

/-- The `sorted(self.modules.items())` of `Package.to_dict`: keys are unique
strings, so Python's tuple sort never compares the `Module` components and
amounts to a stable sort by key. -/
def sortedItems (modules : List (String × Module)) : List (String × Module) :=
  List.insertionSort keyle modules

/-- `Package.to_dict`. -/
def Package.to_dict (p : Package) : PyValue :=
  .dict (PyDict.ofList
    [("root_path", p.root_path.toPyValue),
     ("roots", .list (PyList.ofList (p.roots.map .str))),
     ("modules", .dict (PyDict.ofList ((sortedItems p.modules).map (fun kv => (kv.1, kv.2.to_dict))))),
     ("edges", .list (PyList.ofList (p.build_edges.map Edge.to_dict)))])

/-! ### The per-file module builder of data_models.py (`Module.from_file`) -/

/-- Python exceptions that escape the embedded functions. -/
inductive PyErr where
  | FileNotFoundError
  | PermissionError
  | NotADirectoryError
  | AttributeError (msg : String)
  | TypeError (msg : String)
  | ValueError (msg : String)
deriving DecidableEq

/-- `Module.get_tree`: read and parse, returning `None` on
`SyntaxError`/`UnicodeDecodeError`. -/
def Module.get_tree (content : FileContent) : Option (List stmt) :=
  match content with
  | .parsed body => some body
  | .unparseable => none

/-- `get_filtered_objects`: group a statement list by the runtime type of
each node (a `defaultdict(list)`, so relative order inside a group is
preserved); `groups.get(k, [])` is lookup in the result. -/
def get_filtered_objects (items : List stmt) : StmtKind → List stmt :=
  fun k => items.filter (fun s => stmtKind s = k)

/-- `Function.from_tree_node`.  The source accesses `node.name`,
`node.lineno` and `node.decorator_list`, which only
`FunctionDef`/`AsyncFunctionDef` nodes carry; `get_functions` never applies
it to anything else, so the last arm is unreachable (it would be an
`AttributeError`). -/
def Function.from_tree_node : stmt → Function
  | .FunctionDef nm ln decs => ⟨nm, ln, decs.map _extract_name⟩
  | .AsyncFunctionDef nm ln decs => ⟨nm, ln, decs.map _extract_name⟩
  | _ => ⟨"", 0, []⟩

/-- `Class.from_tree_node`.  As above, only ever applied to `ClassDef`
nodes. -/
def Class.from_tree_node : stmt → Class
  | .ClassDef name lineno bases body =>
      ⟨name, lineno, bases.map _extract_name,
        (body.filter (fun n =>
            match n with
            | .FunctionDef .. => true
            | .AsyncFunctionDef .. => true
            | _ => false)).map Function.from_tree_node⟩
  | _ => ⟨"", 0, [], []⟩

/-- `Module.get_classes`. -/
def Module.get_classes (groups : StmtKind → List stmt) : List Class :=
  (groups .ClassDef).map Class.from_tree_node

/-- `Module.get_functions`: NOTE the source concatenates
`groups.get(ast.FunctionDef, []) + groups.get(ast.AsyncFunctionDef, [])`,
so every plain `def` precedes every `async def` regardless of source
order. -/
def Module.get_functions (groups : StmtKind → List stmt) : List Function :=
  (groups .FunctionDef ++ groups .AsyncFunctionDef).map Function.from_tree_node

/-- `Module.get_imports`. -/
def Module.get_imports (groups : StmtKind → List stmt) : List String :=
  ((groups .Import).map (fun node =>
      match node with
      | .Import names => names.filter (fun n => n ≠ "")
      | _ => [])).flatten
    ++ (groups .ImportFrom).filterMap (fun node =>
      match node with
      | .ImportFrom module => if module.getD "" ≠ "" then some (module.getD "") else none
      | _ => none)

/-- `Module.from_file`.  `content` stands for the result of opening and
parsing `file_path`.  When parsing failed, `get_tree` returns `None` and
the subsequent `list(tree.body)` raises `AttributeError` — the function does
NOT return `None` then, its docstring notwithstanding. -/
def Module.from_file (content : FileContent) (file_path : List String) (root : List String) :
    Except PyErr Module :=
  let dotted_name := Module.convert_path_to_dot (some root) file_path
  let dotted_name := if dotted_name = "" then basename (dirname file_path) else dotted_name
  match Module.get_tree content with
  | none => .error (.AttributeError "\x27NoneType\x27 object has no attribute \x27body\x27")
  | some tree =>
      let groups := get_filtered_objects tree
      .ok ⟨dotted_name, pathToString file_path, Module.get_classes groups,
        Module.get_functions groups, sortedSet (Module.get_imports groups)⟩

/-! ### The filesystem model

A crawl sees the subtree rooted at the crawl root.  `FSNode.dir readable es`
is a directory whose entries (in directory-listing order) are `es`; the
`readable` flag models read permission: listing an unreadable directory
raises `PermissionError`, while plain `stat` of entries below it still works
(search permission is assumed).  The mutual `FSEntries` spelling keeps
recursion structural. -/

mutual
inductive FSNode where
  | file (content : FileContent)
  | dir (readable : Bool) (entries : FSEntries)

inductive FSEntries where
  | nil
  | cons (name : String) (node : FSNode) (rest : FSEntries)
end

def FSEntries.find? : FSEntries → String → Option FSNode
  | .nil, _ => none
  | .cons name node rest, s => if name = s then some node else FSEntries.find? rest s

/-- The names of a directory's entries, in listing order. -/
def FSEntries.names : FSEntries → List String
  | .nil => []
  | .cons name _ rest => name :: FSEntries.names rest

/-- `os.stat` relative to the crawl root: `fs` is the node at the crawl root
(`none` when the root path does not exist), `rel` the path below it. -/
def fsStat (fs : Option FSNode) : List String → Option FSNode
  | [] => fs
  | s :: rest =>
      match fs with
      | some (.dir _ es) => fsStat (es.find? s) rest
      | _ => none

/-- `os.path.isdir` (false rather than an error for missing paths). -/
def os_path_isdir (fs : Option FSNode) (rel : List String) : Bool :=
  match fsStat fs rel with
  | some (.dir _ _) => true
  | _ => false

/-- `os.path.isfile` (false rather than an error for missing paths). -/
def os_path_isfile (fs : Option FSNode) (rel : List String) : Bool :=
  match fsStat fs rel with
  | some (.file _) => true
  | _ => false

/-- `os.listdir`. -/
def os_listdir (fs : Option FSNode) (rel : List String) : Except PyErr (List String) :=
  match fsStat fs rel with
  | none => .error .FileNotFoundError
  | some (.file _) => .error .NotADirectoryError
  | some (.dir false _) => .error .PermissionError
  | some (.dir true es) => .ok es.names

/-- crawler.py `_is_package_dir`: the directory exists and directly contains
a file named `__init__.py`. -/
def _is_package_dir (fs : Option FSNode) (rel : List String) : Bool :=
  os_path_isdir fs rel && os_path_isfile fs (rel ++ ["__init__.py"])

/-- crawler.py `IGNORED_DIRS`. -/
def IGNORED_DIRS : List String :=
  ["__pycache__", ".git", ".hg", ".svn", ".tox", ".mypy_cache", ".pytest_cache",
   ".venv", "venv", "env", "build", "dist"]

def isDirNode : FSNode → Bool
  | .dir _ _ => true
  | .file _ => false

/-- The file names of a directory, in listing order (`os.walk` splits a
directory listing into sub-directories and files, preserving order inside
each group). -/
def FSEntries.fileNames : FSEntries → List String
  | .nil => []
  | .cons name node rest =>
      if isDirNode node then FSEntries.fileNames rest else name :: FSEntries.fileNames rest

/- crawler.py `_iter_python_files`, i.e. `os.walk` (top-down, default
`onerror=None` so unreadable directories are silently skipped) with the
in-place pruning of `IGNORED_DIRS` and the `.py` filter.  For each
directory: first the matching files of the directory itself (listing
order), then each non-pruned subdirectory in listing order, recursively.
Paths are returned relative to the walked node. -/
mutual
def walkFiles : FSNode → List (List String)
  | .file _ => []
  | .dir readable es =>
      if readable then
        (es.fileNames.filter (fun filename => pyEndsWith filename ".py")).map (fun f => [f])
          ++ walkEntries es
      else []

def walkEntries : FSEntries → List (List String)
  | .nil => []
  | .cons name node rest =>
      (if isDirNode node ∧ name ∉ IGNORED_DIRS then (walkFiles node).map (fun p => name :: p) else [])
        ++ walkEntries rest
end

/-- `_iter_python_files(root)`: `os.walk` of a non-existent root yields
nothing. -/
def _iter_python_files (fs : Option FSNode) : List (List String) :=
  match fs with
  | none => []
  | some node => walkFiles node

/-- crawler.py `_discover_roots`: the root's own directory name if the root
is a package, then every immediate child directory that is a package, then
order-preserving de-duplication.  Only `FileNotFoundError` from `os.listdir`
is caught. -/
def _discover_roots (fs : Option FSNode) (root : List String) : Except PyErr (List String) := do
  let roots : List String := if _is_package_dir fs [] then [basename root] else []
  let roots ←
    match os_listdir fs [] with
    | .ok names => .ok (roots ++ names.filter (fun name => _is_package_dir fs [name]))
    | .error .FileNotFoundError => .ok roots
    | .error e => .error e
  pure (pyDedup [] roots)

/-! ### The crawl (crawler.py `crawl_package`) -/

/-- Assignment `modules[k] = v` on an insertion-ordered Python dict:
overwriting keeps the original position of the key. -/
def dictInsert {α : Type} (d : List (String × α)) (k : String) (v : α) : List (String × α) :=
  if d.any (fun p => p.1 = k) then d.map (fun p => if p.1 = k then (k, v) else p)
  else d ++ [(k, v)]

/-- `modules.get(k)` on the assoc-list model of a Python dict. -/
def dictLookup {α : Type} (d : List (String × α)) (k : String) : Option α :=
  (d.find? (fun p => p.1 == k)).map (fun p => p.2)

/-- The body of the `for file_path in _iter_python_files(abs_root)` loop:
compute the dotted name, substitute the parent-directory name if it is
empty, parse, skip `None`, store under `mod.name`.  `open` on a path that
does not point at a file would raise `FileNotFoundError` (unreachable for
walked paths). -/
def crawlStep (abs_root : List String) (fs : Option FSNode)
    (d : List (String × Module)) (rel : List String) : Except PyErr (List (String × Module)) :=
  let file_path := abs_root ++ rel
  let dotted := _module_name_from_path abs_root file_path
  let dotted := if dotted = "" then basename (dirname file_path) else dotted
  match fsStat fs rel with
  | some (.file content) =>
      match _parse_module content file_path dotted with
      | none => .ok d
      | some mod => .ok (dictInsert d mod.name mod)
  | _ => .error .FileNotFoundError

/-- `crawl_package` up to (but not including) the final `to_dict` call: the
`PackageModel` it assembles.  `root_path` is stored as a `pathlib.Path`
object (`Path(root_path).absolute()`), not as a `str`. -/
def crawl_package_model (root_path : List String) (fs : Option FSNode) :
    Except PyErr Package := do
  let abs_root := root_path
  let modules ← (_iter_python_files fs).foldlM (crawlStep abs_root fs) []
  let roots ← _discover_roots fs abs_root
  pure ⟨.path (pathToString abs_root), roots, modules⟩

/-- crawler.py `crawl_package`: the assembled model, serialized by
`to_dict`. -/
def crawl_package (root_path : List String) (fs : Option FSNode) : Except PyErr PyValue :=
  (crawl_package_model root_path fs).map Package.to_dict

/-! ### Mermaid diagram renderers (mermaid.py, plus the class-level method of
data_models.py).  A raised `ValueError` is an `Except.error`. -/

/-- `str.startswith`. -/
def pyStartsWith (s t : String) : Bool := t.data.isPrefixOf s.data

/-- `str.strip()` (ASCII whitespace suffices for the strings involved). -/
def pyStrip (s : String) : String :=
  String.mk ((s.data.dropWhile Char.isWhitespace).reverse.dropWhile Char.isWhitespace |>.reverse)

/-- `str.lower()` (the strings involved are ASCII). -/
def pyLower (s : String) : String := String.mk (s.data.map Char.toLower)

/-- `str.splitlines()` for strings whose only line breaks are `\n` (the only
break the renderers emit). -/
def splitlines (s : String) : List String := pySplitChar '\n' s

def allowed_levels : List String := ["all", "public", "none"]

/-- `f"Unsupported {param} '{value}'. Expected one of {sorted(allowed_levels)}"`
(and `sorted({"all", "public", "none"})` is `['all', 'none', 'public']`). -/
def unsupportedMsg (param value : String) : String :=
  "Unsupported " ++ param ++ " \x27" ++ value ++
    "\x27. Expected one of [\x27all\x27, \x27none\x27, \x27public\x27]"

/-- Dropping the leading `classDiagram` header when a nested renderer's
output is spliced into an enclosing diagram. -/
def stripHeader (diagram : String) : List String :=
  match splitlines diagram with
  | [] => []
  | first :: rest => if pyLower (pyStrip first) = "classdiagram" then rest else first :: rest

/-- The `", ".join(f"@{d}" if not str(d).startswith("@") else str(d) ...)`
decorator note payload. -/
def decosJoined (decorators : List String) : String :=
  String.intercalate ", "
    (decorators.map (fun d => if pyStartsWith d "@" then d else "@" ++ d))

/-- Body of `render_function_diagram` after the `detail_level` validation. -/
def render_function_diagram_body (func : Function) (detail_level : String)
    (include_decorators : Bool) : String :=
  let lines := ["classDiagram"]
  if detail_level = "none" then String.intercalate "\n" lines
  else if detail_level = "public" ∧ pyStartsWith func.name "_" then String.intercalate "\n" lines
  else
    let lines := lines ++ ["    class " ++ func.name ++ " \x7b\n    \x7d"]
    let lines := lines ++
      (if include_decorators ∧ func.decorators ≠ [] then
        ["note for " ++ func.name ++ " \"decorators: " ++ decosJoined func.decorators ++ "\""]
      else [])
    String.intercalate "\n" lines

/-- mermaid.py `render_function_diagram`. -/
def render_function_diagram (func : Function) (detail_level : String)
    (include_decorators : Bool) : Except PyErr String :=
  if detail_level ∉ allowed_levels then
    .error (.ValueError (unsupportedMsg "detail_level" detail_level))
  else .ok (render_function_diagram_body func detail_level include_decorators)

def classNamele (a b : Class) : Prop := pyle a.name b.name

instance : DecidableRel classNamele := fun a b => inferInstanceAs (Decidable (pyle a.name b.name))

def funcNamele (a b : Function) : Prop := pyle a.name b.name

instance : DecidableRel funcNamele := fun a b => inferInstanceAs (Decidable (pyle a.name b.name))

/-- Body of `render_class_diagram` after the `detail_level` validation:
`class Name {`, one `  +m()` line per selected method (sorted by name),
`}`, then one inheritance line per sorted base when requested. -/
def render_class_diagram_body (cls : Class) (include_relations : Bool)
    (detail_level : String) : String :=
  let lines := ["classDiagram"]
  let lines := lines ++ ["class " ++ cls.name ++ " \x7b"]
  let selected_methods :=
    if detail_level = "all" then cls.methods
    else if detail_level = "public" then cls.methods.filter (fun m => !pyStartsWith m.name "_")
    else []
  let lines := lines ++
    (List.insertionSort funcNamele selected_methods).map (fun m => "  +" ++ m.name ++ "()")
  let lines := lines ++ ["\x7d"]
  let lines := lines ++
    (if include_relations then
      (pySorted cls.bases).map (fun base => base ++ " <|-- " ++ cls.name)
    else [])
  String.intercalate "\n" lines

/-- mermaid.py `render_class_diagram`. -/
def render_class_diagram (cls : Class) (include_relations : Bool) (detail_level : String) :
    Except PyErr String :=
  if detail_level ∉ allowed_levels then
    .error (.ValueError (unsupportedMsg "detail_level" detail_level))
  else .ok (render_class_diagram_body cls include_relations detail_level)

/-- data_models.py `Class.to_mermaid_class_diagram`: same validation and the
same rendering as `render_class_diagram`. -/
def Class.to_mermaid_class_diagram (cls : Class) (include_relations : Bool)
    (detail_level : String) : Except PyErr String :=
  if detail_level ∉ allowed_levels then
    .error (.ValueError (unsupportedMsg "detail_level" detail_level))
  else .ok (render_class_diagram_body cls include_relations detail_level)

/-- mermaid.py `Style`: only `name` varies in this development; the color
fields are the constructor defaults. -/
structure Style where
  name : Option String

/-- `f"{x}"` of an `Optional[str]`. -/
def optStr (o : Option String) : String := o.getD "None"

/-- `Style.class_def` with the default colors. -/
def Style.class_def (st : Style) : String :=
  "classDef " ++ optStr st.name ++
    " fill:#eef6ff,stroke:#2b6cb0,stroke-width:1px,color:#1a365d;"

/-- `re.sub(r"[^A-Za-z0-9_]", "_", s)`. -/
def sanitizeName (s : String) : String :=
  String.mk (s.data.map (fun c => if c.isAlphanum ∨ c = '_' then c else '_'))

/-- mermaid.py `Style.apply_style`.  `class_names[0]` would raise
`IndexError` on an empty list; the only caller guards `module.classes`
non-empty, so the `getD` default is unreachable. -/
def Style.apply_style (st : Style) (class_names : List String) : List String :=
  let style_name := sanitizeName (optStr st.name ++ "_style")
  let lines := class_names.map (fun cname => "class " ++ cname ++ ":::" ++ style_name)
  let lines := lines ++ [st.class_def]
  let first_cls := class_names.headD ""
  lines ++ ["note for " ++ first_cls ++ " \"module: " ++ optStr st.name ++ "\""]

/-- Body of `render_module_diagram` after validating both detail levels. -/
def render_module_diagram_body (module : Module) (include_relations : Bool)
    (class_detail_level function_detail_level : String) (include_decorators : Bool)
    (style : Option Style) : String :=
  let lines := ["classDiagram"]
  let sortedClasses := List.insertionSort classNamele module.classes
  let lines := lines ++
    (sortedClasses.map (fun cls =>
      stripHeader (render_class_diagram_body cls false class_detail_level))).flatten
  let lines := lines ++
    (if include_relations then
      (sortedClasses.map (fun cls =>
        (pySorted cls.bases).map (fun base => base ++ " <|-- " ++ cls.name))).flatten
    else [])
  let lines := lines ++
    (if function_detail_level ≠ "none" then
      let funcs :=
        if function_detail_level = "all" then module.functions
        else module.functions.filter (fun f => !pyStartsWith f.name "_")
      ((List.insertionSort funcNamele funcs).map (fun f =>
        stripHeader (render_function_diagram_body f function_detail_level include_decorators))).flatten
    else [])
  let lines := lines ++
    (match style with
     | some st =>
        if module.classes.isEmpty then []
        else
          let class_names := pySorted (module.classes.map (fun c => c.name))
          let st := { st with name := some module.name }
          st.apply_style class_names
     | none => [])
  String.intercalate "\n" lines

/-- mermaid.py `render_module_diagram`. -/
def render_module_diagram (module : Module) (include_relations : Bool)
    (class_detail_level function_detail_level : String) (include_decorators : Bool)
    (style : Option Style) : Except PyErr String :=
  if class_detail_level ∉ allowed_levels then
    .error (.ValueError (unsupportedMsg "class_detail_level" class_detail_level))
  else if function_detail_level ∉ allowed_levels then
    .error (.ValueError (unsupportedMsg "function_detail_level" function_detail_level))
  else .ok (render_module_diagram_body module include_relations class_detail_level
        function_detail_level include_decorators style)

/-- The de-duplicated aggregate inheritance block of
`render_package_diagram`: a fold carrying the emitted lines and the
`added_rel` set (as a list of pairs). -/
def aggregateRelations (modules : List (String × Module)) : List String :=
  (modules.foldl (fun (acc : List String × List (String × String)) kv =>
      kv.2.classes.foldl (fun acc cls =>
        cls.bases.foldl (fun acc base =>
          let rel := (base, cls.name)
          if rel ∈ acc.2 then acc
          else (acc.1 ++ [base ++ " <|-- " ++ cls.name], acc.2 ++ [rel])) acc) acc)
    ([], [])).1

/-- mermaid.py `render_package_diagram`. -/
def render_package_diagram (package : Package) (include_class_relations : Bool)
    (class_detail_level function_detail_level : String) (include_decorators : Bool)
    (include_module_styling : Bool) : Except PyErr String :=
  if class_detail_level ∉ allowed_levels then
    .error (.ValueError (unsupportedMsg "class_detail_level" class_detail_level))
  else if function_detail_level ∉ allowed_levels then
    .error (.ValueError (unsupportedMsg "function_detail_level" function_detail_level))
  else
    let lines := ["classDiagram"]
    let sortedModules := sortedItems package.modules
    let lines := lines ++
      (sortedModules.map (fun kv =>
        let style := if include_module_styling then some (Style.mk (some kv.2.name)) else none
        stripHeader (render_module_diagram_body kv.2 false class_detail_level
          function_detail_level include_decorators style))).flatten
    let lines := lines ++
      (if include_class_relations then aggregateRelations sortedModules else [])
    .ok (String.intercalate "\n" lines)

/-! ### `to_json` (crawler.py), i.e. `json.dumps(model_dict, indent=indent)`
with CPython's default encoder: `ensure_ascii=True`, insertion key order,
separators `(',', ': ')` when `indent` is an integer; a negative `indent`
behaves like `0`; any value that is not `str`/`int`/`list`/`dict` (here: a
`pathlib.PosixPath`) raises `TypeError`. -/

/-- The decimal digits of a natural number (fuel-based so it reduces; the
fuel is instantiated with the number itself, which always suffices). -/
def natDigits (fuel n : Nat) : List Char :=
  match fuel with
  | 0 => []
  | fuel + 1 =>
      if n < 10 then [Char.ofNat (48 + n)]
      else natDigits fuel (n / 10) ++ [Char.ofNat (48 + n % 10)]

/-- `repr` of a Python `int`. -/
def intRepr : Int → String
  | .ofNat n => String.mk (natDigits (n + 1) n)
  | .negSucc n => "-" ++ String.mk (natDigits (n + 2) (n + 1))

/-- Lower-case hex digit. -/
def hexDigit (n : Nat) : Char := if n < 10 then Char.ofNat (48 + n) else Char.ofNat (87 + n)

/-- Four lower-case hex digits. -/
def hex4 (n : Nat) : List Char :=
  [hexDigit (n / 4096 % 16), hexDigit (n / 256 % 16), hexDigit (n / 16 % 16), hexDigit (n % 16)]

/-- One character of `json.encoder.py_encode_basestring_ascii`: the short
escapes, `\uXXXX` for everything outside `0x20..0x7e` (with a surrogate
pair above `0xFFFF`), the character itself otherwise. -/
def escapeChar (c : Char) : List Char :=
  if c = '"' then ['\\', '"']
  else if c = '\\' then ['\\', '\\']
  else if c = '\x08' then ['\\', 'b']
  else if c = '\x0c' then ['\\', 'f']
  else if c = '\n' then ['\\', 'n']
  else if c = '\x0d' then ['\\', 'r']
  else if c = '\t' then ['\\', 't']
  else if c.toNat < 32 ∨ c.toNat > 126 then
    if c.toNat < 65536 then '\\' :: 'u' :: hex4 c.toNat
    else
      let v := c.toNat - 65536
      ('\\' :: 'u' :: hex4 (55296 + v / 1024)) ++ ('\\' :: 'u' :: hex4 (56320 + v % 1024))
  else [c]

/-- JSON string literal for a Python `str` (`ensure_ascii=True`). -/
def encodeString (s : String) : String :=
  "\"" ++ String.mk (s.data.map escapeChar).flatten ++ "\""

/-- `'\n' + ' ' * indent * level` (so `' ' * indent` is empty for a negative
`indent`). -/
def jsonNewline (indent : Int) (level : Nat) : String :=
  "\n" ++ String.mk (List.replicate (indent.toNat * level) ' ')

mutual
/-- `json.dumps` of one value at nesting depth `level`. -/
def jsonDump (indent : Int) (level : Nat) : PyValue → Except PyErr String
  | .str s => .ok (encodeString s)
  | .int n => .ok (intRepr n)
  | .path _ => .error (.TypeError "Object of type PosixPath is not JSON serializable")
  | .list .nil => .ok "[]"
  | .list (.cons v rest) => do
      let parts ← jsonDumpItems indent (level + 1) (.cons v rest)
      .ok ("[" ++ jsonNewline indent (level + 1) ++
        String.intercalate ("," ++ jsonNewline indent (level + 1)) parts ++
        jsonNewline indent level ++ "]")
  | .dict .nil => .ok "\x7b\x7d"
  | .dict (.cons k v rest) => do
      let parts ← jsonDumpEntries indent (level + 1) (.cons k v rest)
      .ok ("\x7b" ++ jsonNewline indent (level + 1) ++
        String.intercalate ("," ++ jsonNewline indent (level + 1)) parts ++
        jsonNewline indent level ++ "\x7d")

def jsonDumpItems (indent : Int) (level : Nat) : PyList → Except PyErr (List String)
  | .nil => .ok []
  | .cons v rest => do
      let s ← jsonDump indent level v
      let ss ← jsonDumpItems indent level rest
      .ok (s :: ss)

def jsonDumpEntries (indent : Int) (level : Nat) : PyDict → Except PyErr (List String)
  | .nil => .ok []
  | .cons k v rest => do
      let s ← jsonDump indent level v
      let ss ← jsonDumpEntries indent level rest
      .ok ((encodeString k ++ ": " ++ s) :: ss)
end

/-- crawler.py `to_json`. -/
def to_json (model_dict : PyValue) (indent : Int) : Except PyErr String :=
  jsonDump indent 0 model_dict

/-! ### Auxiliary definitions used only to state theorems -/

def FSEntries.ofList : List (String × FSNode) → FSEntries
  | [] => .nil
  | (name, node) :: rest => .cons name node (FSEntries.ofList rest)

/-- The traversal-order list of `(dotted name, per-file build result)` pairs
a crawl processes: one entry per walked file, `none` for unparseable
files.  `crawl_package` folds exactly these into its `modules` dict. -/
def crawl_items (abs_root : List String) (fs : Option FSNode) : List (String × Option Module) :=
  (_iter_python_files fs).map (fun rel =>
    let file_path := abs_root ++ rel
    let dotted := substIfEmpty (_module_name_from_path abs_root file_path) file_path
    (dotted,
      match fsStat fs rel with
      | some (.file content) => _parse_module content file_path dotted
      | _ => none))

/-- The module built from the last traversal-order file with dotted name
`q`, if any — the reference value for the last-write-wins contract.  Later
entries take precedence; a file that produced no module contributes
nothing. -/
def lastWins : List (String × Option Module) → String → Option Module
  | [], _ => none
  | (k, o) :: rest, q => (lastWins rest q).or (if k = q then o else none)

/-- The pure fold of build results into the modules dict. -/
def foldInsert (items : List (String × Option Module)) : List (String × Module) :=
  items.foldl (fun d p => match p.2 with | none => d | some m => dictInsert d p.1 m) []

/-- The class block `render_class_diagram` emits for `detail_level="none"`:
header, `class Name {`, `}` with no method lines, then the optional
inheritance lines. -/
def noMethodsBlock (cls : Class) (include_relations : Bool) : String :=
  String.intercalate "\n"
    (["classDiagram", "class " ++ cls.name ++ " \x7b", "\x7d"] ++
      (if include_relations then
        (pySorted cls.bases).map (fun base => base ++ " <|-- " ++ cls.name)
      else []))

/-! ### Concrete fixtures for the literal scenarios of the spec -/

/-- A file body `import math` / `class A: ...` / `def f(): ...`. -/
def goodBody : List stmt :=
  [.Import ["math"], .ClassDef "A" 3 [] [.OtherStmt], .FunctionDef "f" 6 []]

/-- A directory containing one file with unbalanced syntax and one valid
file. -/
def fsParseFailure : Option FSNode :=
  some (.dir true (.ofList
    [("bad.py", .file .unparseable), ("good.py", .file (.parsed goodBody))]))

/-- The module the crawl builds from `good.py` under root `/r`. -/
def goodModule : Module :=
  ⟨"good", "/r/good.py", [⟨"A", 3, [], []⟩], [⟨"f", 6, []⟩], ["math"]⟩

/-- The literal edge-derivation scenario of spec §8: one module `pkg.core`. -/
def coreModule : Module :=
  ⟨"pkg.core", "/abs/core.py",
    [⟨"Concrete", 60, ["PrintableMixin", "Base"], [⟨"area", 66, []⟩, ⟨"default", 70, []⟩]⟩],
    [⟨"greet", 44, []⟩, ⟨"add", 48, []⟩],
    ["math", "typing"]⟩

def corePackage : Package := ⟨.str "/abs", ["pkg"], [("pkg.core", coreModule)]⟩

/-- Two files in different directories that the crawler maps to the same
dotted name, in traversal order `a/mod.py` before `b/mod.py`. -/
def fsCollision : Option FSNode :=
  some (.dir true (.ofList
    [("a", .dir true (.ofList [("mod.py", .file (.parsed [.FunctionDef "f" 1 []]))])),
     ("b", .dir true (.ofList [("mod.py", .file (.parsed [.FunctionDef "g" 1 []]))]))]))

/-- A directory whose only contents are package subdirectories `a` and `b`,
with no marker at the top level. -/
def fsTwoRoots : Option FSNode :=
  some (.dir true (.ofList
    [("a", .dir true (.ofList [("__init__.py", .file (.parsed []))])),
     ("b", .dir true (.ofList [("__init__.py", .file (.parsed []))]))]))

/-- A root directory named `a` that is not itself a package but contains a
package subdirectory also named `a`. -/
def fsNameClash : Option FSNode :=
  some (.dir true (.ofList
    [("a", .dir true (.ofList [("__init__.py", .file (.parsed []))]))]))

/-- A module body in which an `async def` precedes a plain `def`. -/
def asyncFirstBody : List stmt :=
  [.AsyncFunctionDef "a" 1 [], .FunctionDef "b" 3 []]

/-! ## Theorems

### The string order `pyle` is a total preorder with antisymmetry -/

theorem listCharLt_asymm : ∀ {a b : List Char},
    listCharLt a b = true → listCharLt b a = false := by
  intro a
  induction a with
  | nil => intro b h; cases b <;> simp [listCharLt] at *
  | cons x xs ih =>
    intro b h
    cases b with
    | nil => simp [listCharLt] at h
    | cons y ys =>
      simp only [listCharLt] at h ⊢
      rcases lt_trichotomy x y with hxy | hxy | hxy
      · simp [hxy, asymm hxy, not_lt_of_lt hxy]
      · subst hxy; simp [lt_irrefl] at h ⊢; exact ih h
      · simp [hxy, asymm hxy, not_lt_of_lt hxy] at h

theorem listCharLt_connex : ∀ {a b : List Char},
    listCharLt a b = false → listCharLt b a = false → a = b := by
  intro a
  induction a with
  | nil => intro b h _; cases b <;> simp [listCharLt] at *
  | cons x xs ih =>
    intro b h h'
    cases b with
    | nil => simp [listCharLt] at h'
    | cons y ys =>
      simp only [listCharLt] at h h'
      rcases lt_trichotomy x y with hxy | hxy | hxy
      · simp [hxy] at h
      · subst hxy
        simp [lt_irrefl] at h h'
        exact congrArg (x :: ·) (ih h h')
      · simp [hxy] at h'

theorem listCharLt_trans : ∀ {a b c : List Char},
    listCharLt a b = true → listCharLt b c = true → listCharLt a c = true := by
  intro a
  induction a with
  | nil =>
    intro b c hab hbc
    cases b with
    | nil => simp [listCharLt] at hab
    | cons y ys =>
      cases c with
      | nil => simp [listCharLt] at hbc
      | cons z zs => simp [listCharLt]
  | cons x xs ih =>
    intro b c hab hbc
    cases b with
    | nil => simp [listCharLt] at hab
    | cons y ys =>
      cases c with
      | nil => simp [listCharLt] at hbc
      | cons z zs =>
        simp only [listCharLt] at hab hbc ⊢
        rcases lt_trichotomy x y with hxy | hxy | hxy
        · rcases lt_trichotomy y z with hyz | hyz | hyz
          · simp [lt_trans hxy hyz]
          · subst hyz; simp [hxy]
          · simp [hyz, asymm hyz, not_lt_of_lt hyz] at hbc
        · subst hxy
          simp [lt_irrefl] at hab
          rcases lt_trichotomy x z with hyz | hyz | hyz
          · simp [hyz]
          · subst hyz
            simp [lt_irrefl] at hbc ⊢
            exact ih hab hbc
          · simp [hyz, asymm hyz, not_lt_of_lt hyz] at hbc
        · simp [hxy, asymm hxy, not_lt_of_lt hxy] at hab

theorem string_eq_of_data_eq {a b : String} (h : a.data = b.data) : a = b :=
  congrArg String.mk h

theorem pyle_iff {a b : String} : pyle a b ↔ pyLt b a = false := by
  simp [pyle]

instance : IsTotal String pyle := by
  constructor
  intro a b
  cases h : pyLt b a with
  | false => exact Or.inl (pyle_iff.mpr h)
  | true => exact Or.inr (pyle_iff.mpr (listCharLt_asymm h))

instance : IsTrans String pyle := by
  constructor
  intro a b c hab hbc
  rw [pyle_iff] at hab hbc ⊢
  cases hca : pyLt c a with
  | false => rfl
  | true =>
    exfalso
    cases hbclt : pyLt b c with
    | true =>
      have : listCharLt b.data a.data = true := listCharLt_trans hbclt hca
      rw [show listCharLt b.data a.data = pyLt b a from rfl, hab] at this
      exact Bool.false_ne_true this
    | false =>
      have hbc' : b = c := string_eq_of_data_eq (listCharLt_connex hbclt hbc)
      subst hbc'
      rw [hab] at hca
      exact Bool.false_ne_true hca

instance : IsAntisymm String pyle := by
  constructor
  intro a b hab hba
  rw [pyle_iff] at hab hba
  exact string_eq_of_data_eq (listCharLt_connex hba hab)

instance {α : Type} : IsTotal (String × α) keyle := by
  constructor
  intro a b
  exact (inferInstanceAs (IsTotal String pyle)).total a.1 b.1

instance {α : Type} : IsTrans (String × α) keyle := by
  constructor
  intro a b c hab hbc
  exact (inferInstanceAs (IsTrans String pyle)).trans a.1 b.1 c.1 hab hbc

/-! ### Deduplication and `sorted(set(...))` -/

theorem mem_pyDedup {x : String} : ∀ {l seen : List String},
    x ∈ pyDedup seen l ↔ x ∈ l ∧ x ∉ seen := by
  intro l
  induction l with
  | nil => intro seen; simp [pyDedup]
  | cons y ys ih =>
    intro seen
    by_cases hy : y ∈ seen
    · rw [pyDedup, if_pos hy, ih]
      constructor
      · rintro ⟨hmem, hns⟩
        exact ⟨List.mem_cons_of_mem _ hmem, hns⟩
      · rintro ⟨hmem, hns⟩
        rcases List.mem_cons.mp hmem with rfl | hmem
        · exact absurd hy hns
        · exact ⟨hmem, hns⟩
    · rw [pyDedup, if_neg hy]
      constructor
      · intro hmem
        rcases List.mem_cons.mp hmem with rfl | hmem
        · exact ⟨List.mem_cons_self _ _, hy⟩
        · obtain ⟨h1, h2⟩ := ih.mp hmem
          exact ⟨List.mem_cons_of_mem _ h1, fun hseen => h2 (List.mem_cons_of_mem _ hseen)⟩
      · rintro ⟨hmem, hns⟩
        rcases List.mem_cons.mp hmem with rfl | hmem
        · exact List.mem_cons_self _ _
        · by_cases hxy : x = y
          · subst hxy; exact List.mem_cons_self _ _
          · refine List.mem_cons_of_mem _ (ih.mpr ⟨hmem, ?_⟩)
            intro hc
            rcases List.mem_cons.mp hc with h | h
            · exact hxy h
            · exact hns h

theorem nodup_pyDedup : ∀ (l seen : List String), (pyDedup seen l).Nodup := by
  intro l
  induction l with
  | nil => intro seen; simp [pyDedup]
  | cons y ys ih =>
    intro seen
    by_cases hy : y ∈ seen
    · simpa [pyDedup, if_pos hy] using ih seen
    · rw [pyDedup, if_neg hy]
      refine List.nodup_cons.mpr ⟨fun hmem => ?_, ih (y :: seen)⟩
      exact (mem_pyDedup.mp hmem).2 (List.mem_cons_self _ _)

theorem pyDedup_eq_self : ∀ {l seen : List String},
    l.Nodup → (∀ x ∈ l, x ∉ seen) → pyDedup seen l = l := by
  intro l
  induction l with
  | nil => intro seen _ _; rfl
  | cons y ys ih =>
    intro seen hnd hdis
    rw [pyDedup, if_neg (hdis y (List.mem_cons_self _ _))]
    refine congrArg (y :: ·) (ih (List.nodup_cons.mp hnd).2 ?_)
    intro x hx
    simp only [List.mem_cons, not_or]
    exact ⟨fun hxy => (List.nodup_cons.mp hnd).1 (hxy ▸ hx), hdis x (List.mem_cons_of_mem _ hx)⟩

theorem sortedSet_sorted (xs : List String) : List.Sorted pyle (sortedSet xs) :=
  List.sorted_insertionSort pyle _

theorem sortedSet_nodup (xs : List String) : (sortedSet xs).Nodup :=
  (List.perm_insertionSort pyle _).nodup_iff.mpr (nodup_pyDedup _ [])

theorem mem_sortedSet {x : String} {xs : List String} : x ∈ sortedSet xs ↔ x ∈ xs := by
  unfold sortedSet pySorted
  rw [(List.perm_insertionSort pyle _).mem_iff, mem_pyDedup]
  simp

/-- `sorted(set(..))` is the identity on its own output. -/
theorem sortedSet_idem (xs : List String) : sortedSet (sortedSet xs) = sortedSet xs := by
  conv_lhs => rw [sortedSet, pyDedup_eq_self (sortedSet_nodup xs) (by simp)]
  exact List.Sorted.insertionSort_eq (sortedSet_sorted xs)

/-- `sorted(set(..))` only depends on the membership of its input. -/
theorem sortedSet_congr {xs ys : List String} (h : ∀ x, x ∈ xs ↔ x ∈ ys) :
    sortedSet xs = sortedSet ys := by
  have hperm : (sortedSet xs).Perm (sortedSet ys) := by
    refine List.perm_of_nodup_nodup_toFinset_eq (sortedSet_nodup xs) (sortedSet_nodup ys) ?_
    ext a
    simp [List.mem_toFinset, mem_sortedSet, h a]
  exact List.eq_of_perm_of_sorted hperm (sortedSet_sorted xs) (sortedSet_sorted ys)

theorem PyDict_keys_ofList : ∀ l : List (String × PyValue),
    (PyDict.ofList l).keys = l.map Prod.fst := by
  intro l
  induction l with
  | nil => rfl
  | cons kv rest ih => cases kv; simp [PyDict.ofList, PyDict.keys, ih]

/-- Claim C5: every module the per-file builder produces has `imports` equal
to its own deduplicated, lexicographically sorted form, and the keys of the
`modules` dict of `Package.to_dict()` are in sorted order. -/
theorem sort_invariant_of_builder_and_to_dict :
    (∀ (content : FileContent) (fp : List String) (dn : String) (m : Module),
        _parse_module content fp dn = some m → sortedSet m.imports = m.imports) ∧
    (∀ p : Package, ∃ entries, (Package.to_dict p).dictGet "modules" = some (.dict entries) ∧
        List.Sorted pyle entries.keys) := by
  constructor
  · intro content fp dn m h
    cases content with
    | unparseable => exact absurd h (by simp [_parse_module])
    | parsed body =>
      simp only [_parse_module] at h
      injection h with h'
      subst h'
      exact sortedSet_idem _
  · intro p
    refine ⟨_, rfl, ?_⟩
    rw [PyDict_keys_ofList, List.map_map]
    have hs : List.Sorted keyle (sortedItems p.modules) :=
      List.sorted_insertionSort (keyle (α := Module)) p.modules
    exact List.Pairwise.map _ (fun a b hab => hab) hs

/-- Witness for C5 at a concrete builder run (`import typing, math, math`). -/
theorem sort_invariant_of_builder_witness :
    sortedSet ["math", "typing"] = ["math", "typing"] :=
  sort_invariant_of_builder_and_to_dict.1 (.parsed [.Import ["typing", "math", "math"]])
    ["r", "m.py"] "m" ⟨"m", "/r/m.py", [], [], ["math", "typing"]⟩ rfl

/-! ### C1: module-name resolution at the four literal cases -/

/-- Claim C1 (evaluation of the code at the claimed cases): the crawler's
`_module_name_from_path` takes `Path(relpath).stem`, the final component
only, so for root `R` and file `R/pkg/mod.py` it computes `"mod"` (the claim
and the function's own doctest say `"pkg.mod"`) and for `R/pkg/__init__.py`
it computes `""` (claimed: `"pkg"`); the last two cases match the claim.
The sibling `Module.convert_path_to_dot` satisfies all four literal
cases. -/
theorem module_name_resolution_literal_cases :
    _module_name_from_path ["R"] ["R", "pkg", "mod.py"] = "mod" ∧
    _module_name_from_path ["R"] ["R", "pkg", "__init__.py"] = "" ∧
    _module_name_from_path ["R", "pkg"] ["R", "pkg", "__init__.py"] = "" ∧
    _module_name_from_path ["R", "pkg"] ["R", "pkg", "mod.py"] = "mod" ∧
    Module.convert_path_to_dot (some ["R"]) ["R", "pkg", "mod.py"] = "pkg.mod" ∧
    Module.convert_path_to_dot (some ["R"]) ["R", "pkg", "__init__.py"] = "pkg" ∧
    Module.convert_path_to_dot (some ["R", "pkg"]) ["R", "pkg", "__init__.py"] = "" ∧
    Module.convert_path_to_dot (some ["R", "pkg"]) ["R", "pkg", "mod.py"] = "mod" :=
  ⟨rfl, rfl, rfl, rfl, rfl, rfl, rfl, rfl⟩

/-! ### C2: behavior on unparseable files -/

/-- Claim C2 (evaluation): `Module.from_file` RAISES (`AttributeError`, from
`list(tree.body)` on the `None` returned by `get_tree`) for every file whose
source fails to parse, instead of producing nothing; the crawler's own
builder `_parse_module` does produce `None`, so a crawl of a directory with
one unparseable and one valid file succeeds and keeps only the valid
module. -/
theorem parse_failure_builder_and_crawl :
    (∀ (fp root : List String), Module.from_file .unparseable fp root =
        .error (.AttributeError "\x27NoneType\x27 object has no attribute \x27body\x27")) ∧
    (∀ (fp : List String) (dn : String), _parse_module .unparseable fp dn = none) ∧
    crawl_package_model ["r"] fsParseFailure = .ok ⟨.path "/r", [], [("good", goodModule)]⟩ :=
  ⟨fun _ _ => rfl, fun _ _ => rfl, rfl⟩

/-! ### C3: edge derivation at the literal scenario -/

/-- Claim C3: for a package with the single module `pkg.core` (class
`Concrete(PrintableMixin, Base)` with methods `area`, `default`; functions
`greet`, `add`; imports `math`, `typing`) the edge builder returns exactly
these nine edges. -/
theorem edge_derivation_literal_scenario :
    corePackage.build_edges = [
      ⟨"module_contains", "pkg.core", "pkg.core.Concrete"⟩,
      ⟨"class_contains", "pkg.core.Concrete", "pkg.core.Concrete.area"⟩,
      ⟨"class_contains", "pkg.core.Concrete", "pkg.core.Concrete.default"⟩,
      ⟨"inherits", "pkg.core.Concrete", "PrintableMixin"⟩,
      ⟨"inherits", "pkg.core.Concrete", "Base"⟩,
      ⟨"module_contains", "pkg.core", "pkg.core.greet"⟩,
      ⟨"module_contains", "pkg.core", "pkg.core.add"⟩,
      ⟨"imports", "pkg.core", "math"⟩,
      ⟨"imports", "pkg.core", "typing"⟩] := rfl

/-! ### C4: `to_json` on a crawled model -/

/-- Claim C4 (evaluation at the failing input): `crawl_package` stores a
`pathlib.Path` object under `root_path` (its declared type is `str`), so
`to_json` of any crawled model raises
`TypeError: Object of type PosixPath is not JSON serializable` for every
indent — the `to_dict`/`to_json` round trip never completes on crawler
output. -/
theorem to_json_of_crawled_package_raises :
    ∀ indent : Int, (crawl_package ["tmp", "proj"] none).toOption.map (fun d => to_json d indent) =
      some (.error (.TypeError "Object of type PosixPath is not JSON serializable")) :=
  fun _ => rfl

/-! ### C8: non-existent and inaccessible crawl roots -/

/-- Counterexample to claim C8 as stated: crawling an inaccessible
(unreadable) root raises `PermissionError`, because `_discover_roots`
catches only `FileNotFoundError` around `os.listdir`. -/
theorem crawl_inaccessible_root_raises :
    crawl_package_model ["r"] (some (.dir false .nil)) = .error .PermissionError := rfl

/-- Claim C8 as amended: crawling a NON-EXISTENT root does not raise and
yields a package with an empty roots sequence and an empty modules
mapping. -/
theorem crawl_nonexistent_root_yields_empty :
    ∀ root : List String, crawl_package_model root none =
      .ok ⟨.path (pathToString root), [], []⟩ :=
  fun _ => rfl

/-! ### C6: the detail-level guard of the diagram renderers -/

/-- Claim C6: every diagram renderer (function, class, module, package
level — and the class-level method of the data model), given a detail-level
argument outside `{all, public, none}`, raises `ValueError` with a message
naming the offending value and the allowed set; and the class-level
renderers with `detail_level="none"` produce a class block listing zero
methods. -/
theorem detail_level_guard :
    (∀ d, d ∉ allowed_levels →
      (∀ (func : Function) (incl : Bool), render_function_diagram func d incl =
          .error (.ValueError (unsupportedMsg "detail_level" d))) ∧
      (∀ (cls : Class) (incl : Bool), render_class_diagram cls incl d =
          .error (.ValueError (unsupportedMsg "detail_level" d))) ∧
      (∀ (cls : Class) (incl : Bool), Class.to_mermaid_class_diagram cls incl d =
          .error (.ValueError (unsupportedMsg "detail_level" d))) ∧
      (∀ (module : Module) (incl : Bool) (fdl : String) (dec : Bool) (style : Option Style),
          render_module_diagram module incl d fdl dec style =
            .error (.ValueError (unsupportedMsg "class_detail_level" d))) ∧
      (∀ (module : Module) (incl dec : Bool) (style : Option Style),
          render_module_diagram module incl "all" d dec style =
            .error (.ValueError (unsupportedMsg "function_detail_level" d))) ∧
      (∀ (pkg : Package) (incl : Bool) (fdl : String) (dec sty : Bool),
          render_package_diagram pkg incl d fdl dec sty =
            .error (.ValueError (unsupportedMsg "class_detail_level" d))) ∧
      (∀ (pkg : Package) (incl dec sty : Bool),
          render_package_diagram pkg incl "all" d dec sty =
            .error (.ValueError (unsupportedMsg "function_detail_level" d)))) ∧
    (∀ (cls : Class) (incl : Bool),
      render_class_diagram cls incl "none" = .ok (noMethodsBlock cls incl) ∧
      Class.to_mermaid_class_diagram cls incl "none" = .ok (noMethodsBlock cls incl)) := by
  constructor
  · intro d hd
    refine ⟨fun func incl => ?_, fun cls incl => ?_, fun cls incl => ?_,
      fun module incl fdl dec style => ?_, fun module incl dec style => ?_,
      fun pkg incl fdl dec sty => ?_, fun pkg incl dec sty => ?_⟩
    · rw [render_function_diagram, if_pos hd]
    · rw [render_class_diagram, if_pos hd]
    · rw [Class.to_mermaid_class_diagram, if_pos hd]
    · rw [render_module_diagram, if_pos hd]
    · rw [render_module_diagram, if_neg (by decide), if_pos hd]
    · rw [render_package_diagram, if_pos hd]
    · rw [render_package_diagram, if_neg (by decide), if_pos hd]
  · intro cls incl
    constructor
    · rw [render_class_diagram, if_neg (by decide)]
      simp [render_class_diagram_body, noMethodsBlock]
    · rw [Class.to_mermaid_class_diagram, if_neg (by decide)]
      simp [render_class_diagram_body, noMethodsBlock]

/-- Witness for C6 at `detail_level="bogus"` and at `"none"` on a concrete
class. -/
theorem detail_level_guard_witness :
    render_class_diagram ⟨"C", 1, ["B"], [⟨"m", 2, []⟩]⟩ true "bogus" =
      .error (.ValueError (unsupportedMsg "detail_level" "bogus")) ∧
    render_class_diagram ⟨"C", 1, ["B"], [⟨"m", 2, []⟩]⟩ true "none" =
      .ok (noMethodsBlock ⟨"C", 1, ["B"], [⟨"m", 2, []⟩]⟩ true) :=
  ⟨(detail_level_guard.1 "bogus" (by decide)).2.1 _ _,
   (detail_level_guard.2 ⟨"C", 1, ["B"], [⟨"m", 2, []⟩]⟩ true).1⟩

/-! ### C7: last-write-wins in the modules dict -/

theorem keys_map_overwrite (d : List (String × Module)) (k : String) (v : Module) :
    (d.map (fun p => if p.1 = k then (k, v) else p)).map Prod.fst = d.map Prod.fst := by
  rw [List.map_map]
  refine List.map_congr_left ?_
  intro p _
  by_cases h : p.1 = k
  · simp [h]
  · simp [h]

theorem except_ok_bind {ε α β : Type} (a : α) (f : α → Except ε β) :
    (Except.ok a >>= f : Except ε β) = f a := rfl

theorem dictLookup_cons (p : String × Module) (d : List (String × Module)) (q : String) :
    dictLookup (p :: d) q = if p.1 = q then some p.2 else dictLookup d q := by
  by_cases h : p.1 = q
  · simp [dictLookup, List.find?, h]
  · have hbeq : (p.1 == q) = false := by simp [h]
    simp [dictLookup, List.find?, hbeq, h]

theorem keys_dictInsert (d : List (String × Module)) (k : String) (v : Module) :
    ((dictInsert d k v).map Prod.fst).Nodup ↔ (d.map Prod.fst).Nodup := by
  unfold dictInsert
  by_cases hany : (d.any fun p => p.1 = k) = true
  · rw [if_pos hany, keys_map_overwrite]
  · rw [if_neg hany]
    have hk : k ∉ d.map Prod.fst := by
      intro hmem
      obtain ⟨p, hp, hpk⟩ := List.mem_map.mp hmem
      exact hany (List.any_eq_true.mpr ⟨p, hp, by simp [hpk]⟩)
    simp [List.nodup_append, hk]

theorem dictLookup_map_overwrite_ne (d : List (String × Module)) (k q : String) (v : Module)
    (hne : k ≠ q) :
    dictLookup (d.map (fun p => if p.1 = k then (k, v) else p)) q = dictLookup d q := by
  induction d with
  | nil => rfl
  | cons p tl ih =>
    rw [List.map_cons]
    by_cases hp : p.1 = k
    · rw [if_pos hp, dictLookup_cons, dictLookup_cons,
        if_neg (show ¬ (((k, v) : String × Module).1 = q) from hne),
        if_neg (show ¬ (p.1 = q) by rw [hp]; exact hne)]
      exact ih
    · rw [if_neg hp, dictLookup_cons, dictLookup_cons]
      by_cases hq : p.1 = q
      · rw [if_pos hq, if_pos hq]
      · rw [if_neg hq, if_neg hq]
        exact ih

theorem dictLookup_map_overwrite_eq (d : List (String × Module)) (k : String) (v : Module)
    (hany : (d.any fun p => p.1 = k) = true) :
    dictLookup (d.map (fun p => if p.1 = k then (k, v) else p)) k = some v := by
  induction d with
  | nil => simp at hany
  | cons p tl ih =>
    rw [List.map_cons]
    by_cases hp : p.1 = k
    · rw [if_pos hp, dictLookup_cons, if_pos (show ((k, v) : String × Module).1 = k from rfl)]
    · rw [if_neg hp, dictLookup_cons, if_neg hp]
      refine ih ?_
      simpa [List.any_cons, hp] using hany

theorem dictLookup_dictInsert (d : List (String × Module)) (k q : String) (v : Module) :
    dictLookup (dictInsert d k v) q = if k = q then some v else dictLookup d q := by
  unfold dictInsert
  by_cases hany : (d.any fun p => p.1 = k) = true
  · rw [if_pos hany]
    by_cases hkq : k = q
    · rw [if_pos hkq, ← hkq]
      exact dictLookup_map_overwrite_eq d k v hany
    · rw [if_neg hkq]
      exact dictLookup_map_overwrite_ne d k q v hkq
  · rw [if_neg hany]
    by_cases hkq : k = q
    · rw [if_pos hkq]
      have hnone : d.find? (fun p => p.1 == q) = none := by
        rw [List.find?_eq_none]
        intro p hp hpq
        refine hany (List.any_eq_true.mpr ⟨p, hp, ?_⟩)
        simp only [beq_iff_eq] at hpq
        simp [hpq, hkq]
      unfold dictLookup
      rw [List.find?_append, hnone]
      simp [List.find?, hkq]
    · unfold dictLookup
      rw [List.find?_append]
      have hbeq : (k == q) = false := by simp [hkq]
      have hsingle : List.find? (fun p => p.1 == q) [(k, v)] = none := by
        simp [List.find?, hbeq]
      rw [hsingle]
      simp [hkq]

theorem foldInsert_lookup_go : ∀ (items : List (String × Option Module))
    (d : List (String × Module)) (q : String),
    dictLookup (items.foldl (fun d p => match p.2 with | none => d | some m => dictInsert d p.1 m) d) q =
      (lastWins items q).or (dictLookup d q) := by
  intro items
  induction items with
  | nil => intro d q; simp [lastWins]
  | cons p rest ih =>
    intro d q
    cases p with
    | mk k o =>
      rw [List.foldl_cons, lastWins, Option.or_assoc]
      cases o with
      | none => simpa [ite_self] using ih d q
      | some m =>
        rw [show (match (k, some m).2 with
              | none => d
              | some m => dictInsert d (k, some m).1 m) = dictInsert d k m from rfl,
          ih (dictInsert d k m) q, dictLookup_dictInsert]
        by_cases hk : k = q <;> simp [hk]

theorem foldInsert_keys_nodup_go : ∀ (items : List (String × Option Module))
    (d : List (String × Module)), (d.map Prod.fst).Nodup →
    (((items.foldl (fun d p => match p.2 with | none => d | some m => dictInsert d p.1 m) d)).map Prod.fst).Nodup := by
  intro items
  induction items with
  | nil => intro d h; simpa using h
  | cons p rest ih =>
    intro d h
    rw [List.foldl_cons]
    cases hp : p.2 with
    | none => exact ih d h
    | some m => exact ih (dictInsert d p.1 m) ((keys_dictInsert d p.1 m).mpr h)

/-- The modules the crawl loop accumulates are exactly the fold of
`crawl_items` into an insertion-ordered dict. -/
theorem crawl_fold_eq_items : ∀ (root : List String) (fs : Option FSNode)
    (rels : List (List String)) (d D : List (String × Module)),
    rels.foldlM (crawlStep root fs) d = .ok D →
    D = (rels.map (fun rel =>
      let file_path := root ++ rel
      let dotted := substIfEmpty (_module_name_from_path root file_path) file_path
      ((dotted : String),
        (match fsStat fs rel with
        | some (.file content) => _parse_module content file_path dotted
        | _ => none)))).foldl
      (fun d p => match p.2 with | none => d | some m => dictInsert d p.1 m) d := by
  intro root fs rels
  induction rels with
  | nil =>
    intro d D h
    simp only [List.foldlM_nil] at h
    injection h with h
    simp [h]
  | cons rel rest ih =>
    intro d D h
    rw [List.foldlM_cons] at h
    cases hstat : fsStat fs rel with
    | none =>
      rw [crawlStep, hstat] at h
      exact Except.noConfusion h
    | some node =>
      cases node with
      | dir readable es =>
        rw [crawlStep, hstat] at h
        exact Except.noConfusion h
      | file content =>
        rw [List.map_cons, List.foldl_cons]
        simp only [hstat]
        simp only [crawlStep, hstat] at h
        cases content with
        | unparseable =>
          simp only [_parse_module, except_ok_bind] at h
          exact ih d D h
        | parsed body =>
          simp only [_parse_module, substIfEmpty, except_ok_bind] at h ⊢
          exact ih _ D h

/-- Claim C7: a crawl's modules mapping has at most one entry per dotted
name, and the entry stored for a name is the module built from the LAST
traversal-order file that produced that name. -/
theorem crawl_last_write_wins :
    ∀ (root : List String) (fs : Option FSNode) (pkg : Package),
      crawl_package_model root fs = .ok pkg →
      (pkg.modules.map Prod.fst).Nodup ∧
      ∀ k, dictLookup pkg.modules k = lastWins (crawl_items root fs) k := by
  intro root fs pkg h
  simp only [crawl_package_model] at h
  cases hm : (_iter_python_files fs).foldlM (crawlStep root fs) [] with
  | error e => rw [hm] at h; exact Except.noConfusion h
  | ok M =>
    rw [hm] at h
    cases hr : _discover_roots fs root with
    | error e => rw [hr] at h; exact Except.noConfusion h
    | ok R =>
      rw [hr] at h
      simp only [Except.bind, pure, Except.pure] at h
      injection h with h
      have hMods : pkg.modules = M := by rw [← h]
      have hfold := crawl_fold_eq_items root fs (_iter_python_files fs) [] M hm
      constructor
      · rw [hMods, hfold]
        exact foldInsert_keys_nodup_go _ [] (by simp)
      · intro k
        rw [hMods, hfold, foldInsert_lookup_go]
        show (lastWins (crawl_items root fs) k).or (dictLookup ([] : List (String × Module)) k) =
          lastWins (crawl_items root fs) k
        simp [dictLookup]

/-! ### C10: the two per-file builders -/

theorem class_methods_eq : ∀ cbody : List stmt,
    (cbody.filter (fun n => match n with
        | .FunctionDef .. => true
        | .AsyncFunctionDef .. => true
        | _ => false)).map Function.from_tree_node =
      cbody.filterMap (fun n => match n with
        | .FunctionDef nm ln decs => some ⟨nm, ln, decs.map _extract_name⟩
        | .AsyncFunctionDef nm ln decs => some ⟨nm, ln, decs.map _extract_name⟩
        | _ => none) := by
  intro cbody
  induction cbody with
  | nil => rfl
  | cons n rest ih =>
    cases n <;> simp [List.filter_cons, List.filterMap_cons, Function.from_tree_node, ih]

theorem parseModule_foldl_acc : ∀ (body : List stmt) (cs : List Class) (fs : List Function)
    (is : List String),
    body.foldl parseModuleStep (cs, fs, is) =
      (cs ++ (body.foldl parseModuleStep ([], [], [])).1,
       fs ++ (body.foldl parseModuleStep ([], [], [])).2.1,
       is ++ (body.foldl parseModuleStep ([], [], [])).2.2) := by
  intro body
  induction body with
  | nil => intro cs fs is; simp
  | cons n rest ih =>
    intro cs fs is
    simp only [List.foldl_cons]
    cases n
    all_goals
      simp only [parseModuleStep]
      rw [ih]
      try (conv_rhs => rw [ih])
      try simp [List.append_assoc]

theorem get_classes_eq_fold : ∀ body : List stmt,
    Module.get_classes (get_filtered_objects body) = (body.foldl parseModuleStep ([], [], [])).1 := by
  intro body
  induction body with
  | nil => rfl
  | cons n rest ih =>
    simp only [List.foldl_cons]
    cases n with
    | ClassDef name lineno bases cbody =>
      simp only [parseModuleStep]
      rw [parseModule_foldl_acc]
      simp only [Module.get_classes, get_filtered_objects, List.filter_cons, stmtKind] at ih ⊢
      simp [Class.from_tree_node, class_methods_eq, ih]
    | FunctionDef nm ln decs =>
      simp only [parseModuleStep]
      rw [parseModule_foldl_acc]
      simp only [Module.get_classes, get_filtered_objects, List.filter_cons, stmtKind] at ih ⊢
      simp [ih]
    | AsyncFunctionDef nm ln decs =>
      simp only [parseModuleStep]
      rw [parseModule_foldl_acc]
      simp only [Module.get_classes, get_filtered_objects, List.filter_cons, stmtKind] at ih ⊢
      simp [ih]
    | Import names =>
      simp only [parseModuleStep]
      rw [parseModule_foldl_acc]
      simp only [Module.get_classes, get_filtered_objects, List.filter_cons, stmtKind] at ih ⊢
      simp [ih]
    | ImportFrom module =>
      simp only [parseModuleStep]
      rw [parseModule_foldl_acc]
      simp only [Module.get_classes, get_filtered_objects, List.filter_cons, stmtKind] at ih ⊢
      simp [ih]
    | OtherStmt =>
      simp only [parseModuleStep]
      rw [parseModule_foldl_acc]
      simp only [Module.get_classes, get_filtered_objects, List.filter_cons, stmtKind] at ih ⊢
      simp [ih]

theorem get_filtered_cons (n : stmt) (rest : List stmt) (k : StmtKind) :
    get_filtered_objects (n :: rest) k =
      if stmtKind n = k then n :: get_filtered_objects rest k
      else get_filtered_objects rest k := by
  simp only [get_filtered_objects, List.filter_cons]
  by_cases h : stmtKind n = k
  · rw [if_pos h, if_pos (by simp [h])]
  · rw [if_neg h, if_neg (by simp [h])]

theorem get_functions_perm_fold : ∀ body : List stmt,
    (Module.get_functions (get_filtered_objects body)).Perm
      (body.foldl parseModuleStep ([], [], [])).2.1 := by
  intro body
  induction body with
  | nil => exact List.Perm.refl _
  | cons n rest ih =>
    simp only [List.foldl_cons]
    cases n with
    | ClassDef name lineno bases cbody =>
      simp only [parseModuleStep]
      rw [parseModule_foldl_acc]
      simp only [Module.get_functions]
      rw [get_filtered_cons, get_filtered_cons]
      simp only [stmtKind, reduceIte]
      simpa [Module.get_functions] using ih
    | FunctionDef nm ln decs =>
      simp only [parseModuleStep]
      rw [parseModule_foldl_acc]
      simp only [Module.get_functions]
      rw [get_filtered_cons, get_filtered_cons]
      simp only [stmtKind, reduceIte]
      simp only [List.cons_append, List.map_cons, List.nil_append]
      exact List.Perm.cons _ (by simpa [Module.get_functions] using ih)
    | AsyncFunctionDef nm ln decs =>
      simp only [parseModuleStep]
      rw [parseModule_foldl_acc]
      simp only [Module.get_functions]
      rw [get_filtered_cons, get_filtered_cons]
      simp only [stmtKind, reduceIte]
      simp only [List.map_append, List.map_cons, List.nil_append]
      refine List.Perm.trans List.perm_middle (List.Perm.cons _ ?_)
      rw [← List.map_append]
      simpa [Module.get_functions] using ih
    | Import names =>
      simp only [parseModuleStep]
      rw [parseModule_foldl_acc]
      simp only [Module.get_functions]
      rw [get_filtered_cons, get_filtered_cons]
      simp only [stmtKind, reduceIte]
      simpa [Module.get_functions] using ih
    | ImportFrom module =>
      simp only [parseModuleStep]
      rw [parseModule_foldl_acc]
      simp only [Module.get_functions]
      rw [get_filtered_cons, get_filtered_cons]
      simp only [stmtKind, reduceIte]
      simpa [Module.get_functions] using ih
    | OtherStmt =>
      simp only [parseModuleStep]
      rw [parseModule_foldl_acc]
      simp only [Module.get_functions]
      rw [get_filtered_cons, get_filtered_cons]
      simp only [stmtKind, reduceIte]
      simpa [Module.get_functions] using ih

theorem get_imports_perm_fold : ∀ body : List stmt,
    (Module.get_imports (get_filtered_objects body)).Perm
      (body.foldl parseModuleStep ([], [], [])).2.2 := by
  intro body
  induction body with
  | nil => exact List.Perm.refl _
  | cons n rest ih =>
    simp only [List.foldl_cons]
    cases n with
    | ClassDef name lineno bases cbody =>
      simp only [parseModuleStep]
      rw [parseModule_foldl_acc]
      simp only [Module.get_imports]
      rw [get_filtered_cons, get_filtered_cons]
      simp only [stmtKind, reduceIte]
      simpa [Module.get_imports] using ih
    | FunctionDef nm ln decs =>
      simp only [parseModuleStep]
      rw [parseModule_foldl_acc]
      simp only [Module.get_imports]
      rw [get_filtered_cons, get_filtered_cons]
      simp only [stmtKind, reduceIte]
      simpa [Module.get_imports] using ih
    | AsyncFunctionDef nm ln decs =>
      simp only [parseModuleStep]
      rw [parseModule_foldl_acc]
      simp only [Module.get_imports]
      rw [get_filtered_cons, get_filtered_cons]
      simp only [stmtKind, reduceIte]
      simpa [Module.get_imports] using ih
    | Import names =>
      simp only [parseModuleStep]
      rw [parseModule_foldl_acc]
      simp only [Module.get_imports]
      rw [get_filtered_cons, get_filtered_cons]
      simp only [stmtKind, reduceIte]
      simp only [List.map_cons, List.flatten_cons, List.nil_append, List.append_assoc]
      exact List.Perm.append_left _ (by simpa [Module.get_imports] using ih)
    | ImportFrom module =>
      simp only [parseModuleStep]
      rw [parseModule_foldl_acc]
      simp only [Module.get_imports]
      rw [get_filtered_cons, get_filtered_cons]
      simp only [stmtKind, reduceIte]
      simp only [List.filterMap_cons, List.nil_append]
      by_cases hm : module.getD "" ≠ ""
      · simp only [if_pos hm]
        refine List.Perm.trans List.perm_middle (List.Perm.cons _ ?_)
        simpa [Module.get_imports] using ih
      · simp only [if_neg hm]
        simpa [Module.get_imports] using ih
    | OtherStmt =>
      simp only [parseModuleStep]
      rw [parseModule_foldl_acc]
      simp only [Module.get_imports]
      rw [get_filtered_cons, get_filtered_cons]
      simp only [stmtKind, reduceIte]
      simpa [Module.get_imports] using ih

theorem commonPrefixLen_append : ∀ (r l : List String), commonPrefixLen (r ++ l) r = r.length := by
  intro r
  induction r with
  | nil => intro l; cases l <;> rfl
  | cons a as ih =>
    intro l
    simp [List.cons_append, commonPrefixLen, ih, Nat.add_comm]

theorem os_relpath_append (root suffix : List String) (h : suffix ≠ []) :
    os_relpath (root ++ suffix) root = suffix := by
  simp only [os_relpath, commonPrefixLen_append, Nat.sub_self, List.replicate_zero,
    List.nil_append, List.drop_left]
  rw [if_neg h]

theorem pySplitCharAux_no_sep {sep : Char} : ∀ {l : List Char}, sep ∉ l →
    pySplitCharAux sep l = [l] := by
  intro l
  induction l with
  | nil => intro _; rfl
  | cons c cs ih =>
    intro h
    have hc : ¬ c = sep := fun hc => h (hc ▸ List.mem_cons_self _ _)
    have hcs : sep ∉ cs := fun hm => h (List.mem_cons_of_mem _ hm)
    rw [pySplitCharAux, ih hcs]
    show (if c = sep then [[], cs] else [c :: cs]) = [c :: cs]
    rw [if_neg hc]

theorem pySplitChar_no_sep {sep : Char} {s : String} (h : sep ∉ s.data) :
    pySplitChar sep s = [s] := by
  simp [pySplitChar, pySplitCharAux_no_sep h]

theorem pyReplaceAux_single_no_occ {c : Char} {new : List Char} : ∀ {l : List Char} {fuel : Nat},
    c ∉ l → pyReplaceAux [c] new fuel l = l := by
  intro l
  induction l with
  | nil => intro fuel _; cases fuel <;> rfl
  | cons x xs ih =>
    intro fuel h
    have hx : ¬ c = x := fun hc => h (hc ▸ List.mem_cons_self _ _)
    have hxs : c ∉ xs := fun hm => h (List.mem_cons_of_mem _ hm)
    cases fuel with
    | zero => rfl
    | succ fuel =>
      rw [pyReplaceAux, if_neg (by simp [List.isPrefixOf, hx])]
      rw [ih hxs]

theorem pyReplace_single_no_occ {s old new : String} {c : Char} (hold : old.data = [c])
    (h : c ∉ s.data) : pyReplace s old new = s := by
  unfold pyReplace
  rw [hold]
  exact congrArg String.mk (pyReplaceAux_single_no_occ h)

/-- The two slash-substitution steps of the crawler do not change a string
free of slashes and backslashes. -/
theorem crawler_replace_id (s : String) (h1 : '/' ∉ s.data) (h2 : '\\' ∉ s.data) :
    pyReplace (pyReplace s "/" ".") "\\" "." = s := by
  rw [pyReplace_single_no_occ rfl h1, pyReplace_single_no_occ rfl h2]

theorem basename_singleton (f : String) : basename [f] = f := rfl

theorem dirname_append_pair (root : List String) (d f : String) :
    dirname (root ++ [d, f]) = root ++ [d] := by
  show (root ++ [d, f]).dropLast = root ++ [d]
  rw [show root ++ [d, f] = (root ++ [d]) ++ [f] by simp]
  exact List.dropLast_concat

theorem intercalate_singleton (x : String) : String.intercalate "." [x] = x := rfl

/-- In the single-segment case both module-name computations agree; the
computation goes through `Path.stem`, so the slash-replacement steps of the
crawler are no-ops as long as the stem contains no (back)slash. -/
theorem moduleName_agree_single (root : List String) (f : String)
    (h1 : '/' ∉ (pathStem f).data) (h2 : '\\' ∉ (pathStem f).data) :
    substIfEmpty (Module.convert_path_to_dot (some root) (root ++ [f])) (root ++ [f]) =
      substIfEmpty (_module_name_from_path root (root ++ [f])) (root ++ [f]) := by
  have hrel : os_relpath (root ++ [f]) root = [f] := os_relpath_append root [f] (by simp)
  simp only [_module_name_from_path, Module.convert_path_to_dot, hrel,
    if_pos (List.take_left root [f]), List.drop_left, basename_singleton]
  rw [pySplitChar_no_sep h1]
  rw [show with_suffix_empty [f] = [pathStem f] from rfl]
  by_cases hini : pathStem f = "__init__"
  · rw [List.filter_cons_of_neg (by simp [hini])]
    rfl
  · rw [List.filter_cons_of_pos (by simp [hini])]
    show substIfEmpty (pathStem f) (root ++ [f]) =
      substIfEmpty (pyReplace (pyReplace (pathStem f) "/" ".") "\\" ".") (root ++ [f])
    rw [crawler_replace_id (pathStem f) h1 h2]

/-- In the two-segment `__init__` case both module-name computations agree:
the crawler computes `""` and substitutes the parent-directory name, which
is what `convert_path_to_dot` computes directly. -/
theorem moduleName_agree_init_pair (root : List String) (d f : String)
    (hini : pathStem f = "__init__") :
    substIfEmpty (Module.convert_path_to_dot (some root) (root ++ [d, f])) (root ++ [d, f]) =
      substIfEmpty (_module_name_from_path root (root ++ [d, f])) (root ++ [d, f]) := by
  have hrel : os_relpath (root ++ [d, f]) root = [d, f] := os_relpath_append root [d, f] (by simp)
  simp only [_module_name_from_path, Module.convert_path_to_dot, hrel,
    if_pos (List.take_left root [d, f]), List.drop_left]
  rw [show basename [d, f] = f from rfl, hini]
  rw [show with_suffix_empty [d, f] = [d, pathStem f] from rfl, hini]
  by_cases hd : d = "__init__"
  · subst hd
    rfl
  · rw [List.filter_cons_of_pos (by simp [hd])]
    show substIfEmpty (String.intercalate "." [d]) (root ++ [d, f]) =
      substIfEmpty "" (root ++ [d, f])
    rw [intercalate_singleton,
      show substIfEmpty "" (root ++ [d, f]) = basename (dirname (root ++ [d, f])) from rfl,
      dirname_append_pair,
      show basename (root ++ [d]) = d from List.getLastD_concat _ _ _]
    simp only [substIfEmpty]
    by_cases hdz : d = ""
    · rw [if_pos hdz, dirname_append_pair, hdz]
      exact List.getLastD_concat _ _ _
    · rw [if_neg hdz]

/-- Counterexample to claim C10: for root `/R` and file `/R/pkg/mod.py`
whose body is `async def a` followed by `def b`, the two builders disagree
both on the dotted name (`"mod"` from the crawler's computation vs
`"pkg.mod"` from `from_file`) and on the order of the top-level functions
(`from_file` lists every plain `def` before every `async def`). -/
theorem builders_differ_counterexample :
    _parse_module (.parsed asyncFirstBody) ["R", "pkg", "mod.py"]
        (substIfEmpty (_module_name_from_path ["R"] ["R", "pkg", "mod.py"]) ["R", "pkg", "mod.py"]) =
      some ⟨"mod", "/R/pkg/mod.py", [], [⟨"a", 1, []⟩, ⟨"b", 3, []⟩], []⟩ ∧
    Module.from_file (.parsed asyncFirstBody) ["R", "pkg", "mod.py"] ["R"] =
      .ok ⟨"pkg.mod", "/R/pkg/mod.py", [], [⟨"b", 3, []⟩, ⟨"a", 1, []⟩], []⟩ ∧
    ("mod" : String) ≠ "pkg.mod" ∧ (["a", "b"] : List String) ≠ ["b", "a"] :=
  ⟨rfl, rfl, by decide, by decide⟩

/-- Claim C10 as amended: for every file that parses, the two per-file
builders agree on the classes (same order), the imports, and the stored
path, and produce the same top-level functions up to order (`from_file`
groups plain `def`s before `async def`s); their dotted names agree for
files directly under the root and for first-level package-marker files
(elsewhere they may differ, as the crawler keeps only the final path
component). -/
theorem builders_agree_up_to_order :
    (∀ (body : List stmt) (root fp : List String),
      ∃ m1 m2,
        _parse_module (.parsed body) fp (substIfEmpty (_module_name_from_path root fp) fp) =
          some m1 ∧
        Module.from_file (.parsed body) fp root = .ok m2 ∧
        m2.classes = m1.classes ∧ m2.imports = m1.imports ∧ m2.path = m1.path ∧
        m2.functions.Perm m1.functions) ∧
    (∀ (root : List String) (f : String),
      '/' ∉ (pathStem f).data → '\\' ∉ (pathStem f).data →
      substIfEmpty (Module.convert_path_to_dot (some root) (root ++ [f])) (root ++ [f]) =
        substIfEmpty (_module_name_from_path root (root ++ [f])) (root ++ [f])) ∧
    (∀ (root : List String) (d f : String), pathStem f = "__init__" →
      substIfEmpty (Module.convert_path_to_dot (some root) (root ++ [d, f])) (root ++ [d, f]) =
        substIfEmpty (_module_name_from_path root (root ++ [d, f])) (root ++ [d, f])) := by
  refine ⟨?_, moduleName_agree_single, moduleName_agree_init_pair⟩
  intro body root fp
  refine ⟨_, _, rfl, rfl, get_classes_eq_fold body, ?_, rfl, ?_⟩
  · exact sortedSet_congr (fun x => (get_imports_perm_fold body).mem_iff)
  · exact get_functions_perm_fold body

/-- Witness for the amended C10 at concrete inputs: `/R/m.py` (single
segment) and `/R/pkg/__init__.py` (marker pair). -/
theorem builders_agree_witness :
    substIfEmpty (Module.convert_path_to_dot (some ["R"]) (["R"] ++ ["m.py"])) (["R"] ++ ["m.py"]) =
      substIfEmpty (_module_name_from_path ["R"] (["R"] ++ ["m.py"])) (["R"] ++ ["m.py"]) ∧
    substIfEmpty (Module.convert_path_to_dot (some ["R"]) (["R"] ++ ["pkg", "__init__.py"]))
        (["R"] ++ ["pkg", "__init__.py"]) =
      substIfEmpty (_module_name_from_path ["R"] (["R"] ++ ["pkg", "__init__.py"]))
        (["R"] ++ ["pkg", "__init__.py"]) :=
  ⟨builders_agree_up_to_order.2.1 ["R"] "m.py" (by decide) (by decide),
   builders_agree_up_to_order.2.2 ["R"] "pkg" "__init__.py" (by decide)⟩

/-! ### C9: root discovery -/

/-- Counterexample to claim C9's "if and only if": for a crawl root named
`a` that is NOT itself a package but contains a package subdirectory also
named `a`, `_discover_roots` returns a list containing the root's own
directory name even though the root does not qualify. -/
theorem discover_roots_name_clash :
    _discover_roots fsNameClash ["x", "a"] = .ok ["a"] ∧
    _is_package_dir fsNameClash [] = false ∧
    basename ["x", "a"] = "a" := ⟨rfl, rfl, rfl⟩

/-- Claim C9 as amended: the literal two-package scenario returns exactly
`["a", "b"]` (listing order, no duplicates, top-level name absent); every
result is duplicate-free; and when the root is listable, a name is in the
result iff it is the root's own name and the root qualifies, or it is the
name of an immediate child that qualifies (so the root's name is present
whenever the root qualifies, but it can also appear because of a
same-named child). -/
theorem discover_roots_spec :
    (_discover_roots fsTwoRoots ["home", "proj"] = .ok ["a", "b"]) ∧
    (∀ (fs : Option FSNode) (root l : List String),
      _discover_roots fs root = .ok l → l.Nodup) ∧
    (∀ (fs : Option FSNode) (root names l : List String),
      os_listdir fs [] = .ok names → _discover_roots fs root = .ok l →
      ∀ s, s ∈ l ↔ ((s = basename root ∧ _is_package_dir fs [] = true) ∨
                    (s ∈ names ∧ _is_package_dir fs [s] = true))) := by
  refine ⟨rfl, ?_, ?_⟩
  · intro fs root l h
    simp only [_discover_roots] at h
    cases hl : os_listdir fs [] with
    | ok names =>
      rw [hl] at h
      simp only [Except.bind, pure, Except.pure] at h
      injection h with h
      rw [← h]
      exact nodup_pyDedup _ _
    | error e =>
      rw [hl] at h
      cases e with
      | FileNotFoundError =>
        simp only [Except.bind, pure, Except.pure] at h
        injection h with h
        rw [← h]
        exact nodup_pyDedup _ _
      | PermissionError => exact Except.noConfusion h
      | NotADirectoryError => exact Except.noConfusion h
      | AttributeError msg => exact Except.noConfusion h
      | TypeError msg => exact Except.noConfusion h
      | ValueError msg => exact Except.noConfusion h
  · intro fs root names l hl h s
    simp only [_discover_roots] at h
    rw [hl] at h
    simp only [Except.bind, pure, Except.pure] at h
    injection h with h
    rw [← h, mem_pyDedup]
    simp only [List.not_mem_nil, and_true, List.mem_append, List.mem_filter]
    by_cases hpkg : _is_package_dir fs [] = true
    · simp [hpkg]
    · simp [hpkg]

/-- Witness for C9's amended statement at the two-package scenario. -/
theorem discover_roots_spec_witness :
    (["a", "b"] : List String).Nodup ∧
    ("a" ∈ (["a", "b"] : List String) ↔
      (("a" = basename ["home", "proj"] ∧ _is_package_dir fsTwoRoots [] = true) ∨
       ("a" ∈ (["a", "b"] : List String) ∧ _is_package_dir fsTwoRoots ["a"] = true))) :=
  ⟨discover_roots_spec.2.1 fsTwoRoots ["home", "proj"] ["a", "b"] rfl,
   discover_roots_spec.2.2 fsTwoRoots ["home", "proj"] ["a", "b"] ["a", "b"] rfl rfl "a"⟩

/-- Witness for C7: two files `a/mod.py`, `b/mod.py` both map to dotted name
`mod`; the surviving entry is the module built from the later file
`b/mod.py`. -/
theorem crawl_last_write_wins_witness :
    (([("mod", (⟨"mod", "/r/b/mod.py", [], [⟨"g", 1, []⟩], []⟩ : Module))]).map Prod.fst).Nodup ∧
    dictLookup [("mod", (⟨"mod", "/r/b/mod.py", [], [⟨"g", 1, []⟩], []⟩ : Module))] "mod" =
      lastWins (crawl_items ["r"] fsCollision) "mod" := by
  have h := crawl_last_write_wins ["r"] fsCollision
    ⟨.path "/r", [], [("mod", ⟨"mod", "/r/b/mod.py", [], [⟨"g", 1, []⟩], []⟩)]⟩ rfl
  exact ⟨h.1, h.2 "mod"⟩

end Arch
